import Mathlib

/-!
Shallow embedding of `src/histocartography/preprocessing/graph_builders.py`
(graph construction from a region/instance map or from point coordinates),
together with the parts of its external collaborators whose behaviour the
code observably depends on (numpy indexing, cv2 dilation, DGL shape checks,
scipy sparse `nonzero`, sklearn `kneighbors_graph`).

Conventions:
- a 2D integer array (instance map / annotation map) is a `List (List Nat)`;
- a feature matrix is a `List (List Int)` (only its row count and verbatim
  copying are observable to the claims);
- point coordinates are `List (Int × Int)`; Euclidean-distance comparisons
  are carried out on squared distances, which is exact for integer inputs;
- fallible steps return `Except String`; the string mirrors the Python
  exception that the corresponding operation raises.
-/

/-- A 2D integer array (numpy `ndarray` of shape H×W): instance maps and
pixel-level annotation maps. -/
abbrev Image := List (List Nat)

/-- The assembled graph: embeds the observable state of a `dgl.DGLGraph`
after `process` (node count, `ndata[FEATURES]`, `ndata[CENTROID]`,
`ndata[LABEL]`, and the edge list in insertion order). -/
structure DGraph where
  numNodes : Nat
  feats : List (List Int)
  centroids : List (Int × Int)
  labels : Option (List Int)
  edges : List (Nat × Nat)
deriving Repr, DecidableEq, Inhabited

/-- Edge list of a build result; `[]` for a failed build. Used by concrete
evaluations. -/
def edgesOf (r : Except String DGraph) : List (Nat × Nat) :=
  match r with
  | .ok g => g.edges
  | .error _ => []

/-- Graph of a successful build result (`default` for a failed build). -/
def graphOf (r : Except String DGraph) : DGraph :=
  match r with
  | .ok g => g
  | .error _ => default

/-- Embeds `pd.unique`: distinct values in order of first occurrence. -/
def pdUnique (l : List Nat) : List Nat :=
  l.foldl (fun acc x => if x ∈ acc then acc else acc ++ [x]) []

/-- All pixels of a 2D array in row-major order, as `(row, col, value)`. -/
def pixelList (im : Image) : List (Nat × Nat × Nat) :=
  (List.range im.length).flatMap fun y =>
    (List.range (im.getD y []).length).map fun x => (y, x, (im.getD y []).getD x 0)

/-- Pixel value at (possibly out-of-range) integer coordinates; `none`
outside the array. -/
def pixelVal (im : Image) (y x : Int) : Option Nat :=
  if 0 ≤ y ∧ 0 ≤ x then (im.getD y.toNat [])[x.toNat]?
  else none

/-- Embeds `np.sort(pd.unique(np.ravel(instance_map)))` with the background id 0
deleted (`_build_topology`, lines 236–239): the distinct positive instance
ids in ascending order.  `regionprops` enumerates exactly these labels in
the same order, so `_set_node_centroids` uses the same list. -/
def sortedPositiveIds (im : Image) : List Nat :=
  let vals := im.flatten
  (List.range (vals.foldr Nat.max 0 + 1)).filter fun v => v ≠ 0 && vals.contains v

/-- Membership test of the binary mask `instance_map == r` at integer
coordinates (false outside the array). -/
def maskAt (im : Image) (r : Nat) (y x : Int) : Bool :=
  pixelVal im y x == some r

/-- Embeds `cv2.dilate(mask, np.ones((ks, ks)), iterations=1)` at pixel `(y, x)`:
the structuring element is a `ks×ks` square anchored at its centre
`(ks/2, ks/2)`; pixels outside the array do not contribute (constant
border that is neutral for dilation). -/
def dilateAt (im : Image) (r : Nat) (ks : Nat) (y x : Nat) : Bool :=
  (List.range ks).any fun dy =>
    (List.range ks).any fun dx =>
      maskAt im r ((y : Int) + dy - (ks / 2 : Nat)) ((x : Int) + dx - (ks / 2 : Nat))

/-- Embeds `boundary = dilation - mask` at pixel `(y, x)`: in the dilated mask but
not in the mask itself. -/
def boundaryAt (im : Image) (r : Nat) (ks : Nat) (y x : Nat) : Bool :=
  dilateAt im r ks y x && !maskAt im r y x

/-- Embeds `pd.unique(instance_map[boundary.astype(bool)])` (`_build_topology`,
line 247): distinct instance-map values under the boundary ring of region
`r`, in row-major first-occurrence order. -/
def boundaryIds (im : Image) (ks r : Nat) : List Nat :=
  pdUnique (((pixelList im).filter fun t => boundaryAt im r ks t.1 t.2.1).map fun t => t.2.2)

/-- numpy integer-index normalisation for an axis of length `n`: indices in
`[-n, n)` are accepted, negative ones wrap around (`-1` addresses the last
entry). -/
def npIdxOk (n : Nat) (i : Int) : Bool :=
  decide (-(n : Int) ≤ i) && decide (i < (n : Int))

/-- The position a (possibly negative) numpy index addresses. -/
def npWrap (n : Nat) (i : Int) : Nat :=
  if i < 0 then ((n : Int) + i).toNat else i.toNat

/-- Embeds `np.nonzero(adjacency)` turned back into an edge list
(`_build_topology`, lines 252–253): all positions `(a, b)` of a `n×n` 0/1
matrix whose entry was set, in row-major order. -/
def matrixNonzero (n : Nat) (entries : List (Nat × Nat)) : List (Nat × Nat) :=
  (List.range n).flatMap fun a =>
    ((List.range n).filter fun b => decide ((a, b) ∈ entries)).map fun b => (a, b)

/-- The assignments `adjacency[instance_id, idx] = 1` performed by the loop
of `RAGGraphBuilder._build_topology` (lines 243–250), after the decrements
`instance_id -= 1` and `idx -= 1`, with numpy index wrap-around applied:
one `(row, column)` pair per boundary id of each region. -/
def ragAssignList (im : Image) (ks : Nat) : List (Nat × Nat) :=
  let ids := sortedPositiveIds im
  let n := ids.length
  ids.flatMap fun r =>
    (boundaryIds im ks r).map fun (v : Nat) =>
      (npWrap n ((r : Int) - 1), npWrap n ((v : Int) - 1))

/-- `RAGGraphBuilder._build_topology` (lines 229–253): zero `n×n` adjacency
matrix, one pass over the sorted positive instance ids setting
`adjacency[instance_id - 1, idx - 1] = 1` for every id `idx` under the
region's dilated boundary ring, then `np.nonzero` row-major as the edge
list.  The loop writes only 1s into a zero matrix, so the final matrix is
the set of written positions; an out-of-range index (numpy `IndexError`)
is reported as an error, exactly when the Python loop would raise. -/
def ragBuildTopology (im : Image) (ks : Nat) : Except String (List (Nat × Nat)) :=
  let ids := sortedPositiveIds im
  let n := ids.length
  if (ids.all fun r => npIdxOk n ((r : Int) - 1)) &&
     (ids.all fun r => (boundaryIds im ks r).all fun v => npIdxOk n ((v : Int) - 1)) then
    .ok (matrixNonzero n (ragAssignList im ks))
  else
    .error "IndexError: index out of bounds for adjacency"

/-- Python `int(round(num / den))` for a nonnegative rational mean: round
half to even (the float `num / den` and `round` of CPython; exact on the
rational value). -/
def pyRound (num den : Nat) : Nat :=
  if den = 0 then 0
  else
    let q := num / den
    let r2 := 2 * (num % den)
    if r2 < den then q else if den < r2 then q + 1 else if q % 2 = 0 then q else q + 1

/-- Row-major pixel coordinates `(row, col)` of region `r`. -/
def regionPixels (im : Image) (r : Nat) : List (Nat × Nat) :=
  ((pixelList im).filter fun t => t.2.2 == r).map fun t => (t.1, t.2.1)

/-- Embeds `RAGGraphBuilder._set_node_centroids` (lines 195–205): one centroid per
`regionprops` region (the distinct positive instance ids, ascending); the
region centroid is the mean `(row, col)` over the region's pixels, each
coordinate rounded with Python `round`, stored as `(center_x, center_y)`. -/
def ragCentroids (im : Image) : List (Int × Int) :=
  (sortedPositiveIds im).map fun r =>
    let pts := regionPixels im r
    (((pyRound (pts.map (·.2)).sum pts.length : Nat) : Int),
     ((pyRound (pts.map (·.1)).sum pts.length : Nat) : Int))

/-- Modelled from the spec: `fast_histogram` (imported from
`histocartography/preprocessing/utils.py`, which is not under `src/`):
"compute a histogram of the pixel-level annotation values restricted to
that region's pixels, with bin count equal to the configured class count"
— bin `i` counts the values equal to `i`, `0 ≤ i < nrValues`. -/
def fastHistogram (vals : List Nat) (nrValues : Nat) : List Nat :=
  (List.range nrValues).map fun i => vals.count i

/-- Embeds `annotation[instance_map == region_label]`: the annotation values at
the region's pixels, row-major. -/
def annPixels (im ann : Image) (r : Nat) : List Nat :=
  ((pixelList im).filter fun t => t.2.2 == r).map fun t =>
    (ann.getD t.1 []).getD t.2.1 0

/-- Embeds `histogram[mask].sum()` where `mask` is all-ones except position
`backgroundClass` (lines 219–221): the total count outside the background
bin. -/
def maskedSum (hist : List Nat) (bg : Nat) : Nat :=
  ((hist.enum.filter fun p => p.1 ≠ bg).map fun p => p.2).sum

/-- Computes `l.foldr Nat.max 0`: the maximum entry of a histogram (0 for `[]`). -/
def listMax (l : List Nat) : Nat := l.foldr Nat.max 0

/-- Embeds `np.argmax`: the first index at which the maximum value occurs. -/
def npArgmax (l : List Nat) : Nat := l.findIdx fun x => x == listMax l

/-- Asserts that `a` is the least index attaining the maximum entry of `l`: the
documented tie-break behaviour of `np.argmax` ("ties broken by lowest
class index"). -/
def IsLeastArgmax (l : List Nat) (a : Nat) : Prop :=
  a < l.length ∧ l.getD a 0 = listMax l ∧ ∀ j < a, l.getD j 0 < l.getD a 0

/-- Per-region assignment of `RAGGraphBuilder._set_node_labels`
(lines 219–225): if the histogram is zero outside the background bin the
region is assigned the background class; otherwise the background bin is
zeroed and `np.argmax` of the result is assigned. -/
def regionAssignment (hist : List Nat) (bg : Nat) : Nat :=
  if maskedSum hist bg = 0 then bg else npArgmax (hist.set bg 0)

/-- torch tensor integer-index normalisation for a tensor of length `n`
(negative indices wrap): `some` of the addressed position, `none`
(IndexError) outside `[-n, n)`. -/
def torchIdx (n : Nat) (i : Int) : Option Nat :=
  if 0 ≤ i ∧ i < (n : Int) then some i.toNat
  else if -(n : Int) ≤ i ∧ i < 0 then some ((n : Int) + i).toNat
  else none

/-- Do two 2D arrays have the same shape (row count and per-row lengths)?
numpy boolean-mask indexing `annotation[instance_map == r]` requires it. -/
def sameShape (a b : Image) : Bool :=
  a.length == b.length && (a.zip b).all fun p => p.1.length == p.2.length

/-- Embeds `RAGGraphBuilder._set_node_labels` (lines 207–227): asserts
`nr_classes < 256`, walks `pd.unique(np.ravel(instance_map))` in
first-occurrence order, assigns each region's label into position
`region_label - 1` of a fresh tensor of length `len(region_labels)` (torch
negative-index wrap applied; IndexError reported as an error).  The tensor
comes from `torch.empty` (uninitialised); it is modelled as zero-filled,
which is unobservable: a slot can stay unwritten only when the distinct
values are not exactly `{1, …, n}`, and every such build fails later at
the `ndata` length check or already here with an IndexError. -/
def ragSetNodeLabels (nrClasses bg : Nat) (im ann : Image) : Except String (List Nat) :=
  if nrClasses < 256 then
    if sameShape im ann then
      let regionLabels := pdUnique im.flatten
      regionLabels.foldlM (fun labs r =>
        let hist := fastHistogram (annPixels im ann r) nrClasses
        if bg < nrClasses then
          match torchIdx labs.length ((r : Int) - 1) with
          | some i => .ok (labs.set i (regionAssignment hist bg))
          | none => .error "IndexError: tensor index out of range"
        else .error "IndexError: mask index out of bounds")
        (List.replicate regionLabels.length 0)
    else .error "IndexError: boolean index shape mismatch"
  else .error "AssertionError: Cannot handle that many classes with 8 byte representation"

/-- The label step of `BaseGraphBuilder.process` for the region builder
(lines 75–76 dispatching to `_set_node_labels`) followed by the
`graph.ndata[LABEL] = labels` shape check of DGL (the tensor's first
dimension must equal the node count). -/
def ragLabelsStep (nrClasses bg numNodes : Nat) (im : Image) (ann : Option Image) :
    Except String (Option (List Int)) :=
  match ann with
  | none => .ok none
  | some a =>
    match ragSetNodeLabels nrClasses bg im a with
    | .error e => .error e
    | .ok labs =>
      if labs.length = numNodes then .ok (some (labs.map Int.ofNat))
      else .error "DGLError: label tensor length differs from number of nodes"

/-- Entry `(i, j)` of the dense adjacency matrix of a graph
(`graph.adjacency_matrix().to_dense()`); the edge lists built here contain
no duplicate pairs, so entries are 0/1. -/
def denseAdj (edges : List (Nat × Nat)) : Nat → Nat → Int :=
  fun i j => if (i, j) ∈ edges then 1 else 0

/-- Entry `(i, j)` of a matrix product over indices `< n`. -/
def matMulEntry (n : Nat) (A B : Nat → Nat → Int) (i j : Nat) : Int :=
  ((List.range n).map fun k => A i k * B k j).sum

/-- One step of the hop expansion:
`A_tilde = (1.0 * ((A + A.matmul(A)) >= 1)) - torch.eye(n)`
(`two_hop_neighborhood`, line 26). -/
def hopStep (n : Nat) (A : Nat → Nat → Int) : Nat → Nat → Int :=
  fun i j =>
    (if 1 ≤ A i j + matMulEntry n A A i j then (1 : Int) else 0) -
      (if i = j then 1 else 0)

/-- Embeds `two_hop_neighborhood` (lines 24–34): build `A_tilde` from the dense
adjacency, rebuild a graph from it via
`networkx.from_numpy_matrix` (an undirected graph with an edge wherever an
entry is nonzero) and `DGLGraph.from_networkx` (which materialises both
directions), and copy the node data over. -/
def twoHopNeighborhood (g : DGraph) : DGraph :=
  let n := g.numNodes
  let At := hopStep n (denseAdj g.edges)
  { g with
    edges :=
      (List.range n).flatMap fun i =>
        ((List.range n).filter fun j => At i j ≠ 0 || At j i ≠ 0).map fun j => (i, j) }

/-- Embeds `BaseGraphBuilder.process` (lines 49–83) for `RAGGraphBuilder`:
allocate `features.shape[0]` nodes; attach the features verbatim; attach
the centroids (DGL checks the `ndata` length against the node count);
attach the labels when an annotation is supplied; build the topology and
`add_edges` (DGL raises if an endpoint is not an existing node).  The
multi-hop loop of `_build_topology` (lines 255–256),
`for _ in range(self.hops - 1): graph = two_hop_neighborhood(graph)`,
rebinds a local variable only: the expanded graphs are computed and
discarded, and the caller's graph — returned by `process` — keeps the
1-hop edges. -/
def ragProcess (ks hops nrClasses bg : Nat) (im : Image) (feats : List (List Int))
    (ann : Option Image) : Except String DGraph :=
  let numNodes := feats.length
  let cents := ragCentroids im
  if cents.length = numNodes then
    match ragLabelsStep nrClasses bg numNodes im ann with
    | .error e => .error e
    | .ok labs =>
      match ragBuildTopology im ks with
      | .error e => .error e
      | .ok edges =>
        if edges.all fun e => decide (e.1 < numNodes) && decide (e.2 < numNodes) then
          let g : DGraph := ⟨numNodes, feats, cents, labs, edges⟩
          let _discarded := (List.range (hops - 1)).foldl (fun gh _ => twoHopNeighborhood gh) g
          .ok g
        else .error "DGLError: add_edges to nonexistent node"
  else .error "DGLError: centroid tensor length differs from number of nodes"

/-- Squared Euclidean distance between two integer points.  For integer
inputs, comparisons of Euclidean distances (equality with zero, order
against a threshold) are exactly the corresponding comparisons of squared
distances. -/
def sqDist (p q : Int × Int) : Int :=
  (p.1 - q.1) ^ 2 + (p.2 - q.2) ^ 2

/-- Insert into a list sorted by `le` (used to model the sorted
nearest-neighbour order). -/
def insertLe (le : α → α → Bool) (a : α) : List α → List α
  | [] => [a]
  | b :: t => if le a b then a :: b :: t else b :: insertLe le a t

/-- Insertion sort by `le`. -/
def sortLe (le : α → α → Bool) : List α → List α
  | [] => []
  | a :: t => insertLe le a (sortLe le t)

/-- The neighbour order used by `sklearn.neighbors.kneighbors_graph`:
ascending Euclidean distance from point `i`, ties broken by index (the
library leaves tie order unspecified; index order is the deterministic
choice made here). -/
def knnLe (pts : List (Int × Int)) (i : Nat) (a b : Nat) : Bool :=
  let d := fun j => sqDist (pts.getD i (0, 0)) (pts.getD j (0, 0))
  decide (d a < d b) || (decide (d a = d b) && decide (a ≤ b))

/-- Embeds `kneighbors_graph(centroids, k, mode="distance", include_self=False)`,
row `i`: the `k` nearest other points (self excluded as a candidate), in
ascending-distance order. -/
def knnNeighbors (pts : List (Int × Int)) (k : Nat) (i : Nat) : List Nat :=
  (sortLe (knnLe pts i) ((List.range pts.length).filter fun j => j ≠ i)).take k

/-- Embeds `KNNGraphBuilder._build_topology` (lines 294–313): the kNN adjacency in
distance mode, its stored entries extracted with `np.nonzero` — which, on
a scipy sparse matrix, keeps only stored entries whose *value* is nonzero,
dropping neighbours at distance exactly 0 — then the optional threshold
filter `compute_l2_distance(centroids[s], centroids[d]) < thresh`
(`compute_l2_distance` is the Euclidean distance; it is not under `src/`
and is modelled from the spec's words "maximum allowed distance").  The
surviving `(source, dest)` pairs are added as directed edges. -/
def knnEdgeList (pts : List (Int × Int)) (k : Nat) (thresh : Option Nat) :
    List (Nat × Nat) :=
  let base :=
    (List.range pts.length).flatMap fun i =>
      ((knnNeighbors pts k i).filter fun j =>
          sqDist (pts.getD i (0, 0)) (pts.getD j (0, 0)) ≠ 0).map fun j => (i, j)
  match thresh with
  | none => base
  | some t => base.filter fun e =>
      sqDist (pts.getD e.1 (0, 0)) (pts.getD e.2 (0, 0)) < (t : Int) ^ 2

/-- Embeds `KNNGraphBuilder._set_node_labels` (lines 280–283): the annotation
vector is copied through verbatim as `ndata[LABEL]`, subject to the DGL
shape check that its length equals the node count. -/
def knnLabelsStep (numNodes : Nat) (ann : Option (List Int)) :
    Except String (Option (List Int)) :=
  match ann with
  | none => .ok none
  | some a =>
    if a.length = numNodes then .ok (some a)
    else .error "DGLError: label tensor length differs from number of nodes"

/-- Embeds `BaseGraphBuilder.process` (lines 49–83) for `KNNGraphBuilder`:
allocate `features.shape[0]` nodes; attach features verbatim; attach the
centroids verbatim (`_set_node_centroids`, lines 276–278, with the DGL
`ndata` length check); attach the annotation vector verbatim as labels
when supplied; build the kNN topology (`kneighbors_graph` raises unless
`1 ≤ k ≤ n_samples - 1`) and `add_edges` (DGL raises if an endpoint is
not an existing node). -/
def knnProcess (k : Nat) (thresh : Option Nat) (cents : List (Int × Int))
    (feats : List (List Int)) (ann : Option (List Int)) : Except String DGraph :=
  let numNodes := feats.length
  if cents.length = numNodes then
    match knnLabelsStep numNodes ann with
    | .error e => .error e
    | .ok labs =>
      if 1 ≤ k ∧ k + 1 ≤ cents.length then
        let edges := knnEdgeList cents k thresh
        if edges.all fun e => decide (e.1 < numNodes) && decide (e.2 < numNodes) then
          .ok ⟨numNodes, feats, cents, labs, edges⟩
        else .error "DGLError: add_edges to nonexistent node"
      else .error "ValueError: Expected n_neighbors <= n_samples - 1"
  else .error "DGLError: centroid tensor length differs from number of nodes"

/-- Out-degree of node `i` in an edge list. -/
def outDegree (edges : List (Nat × Nat)) (i : Nat) : Nat :=
  (edges.filter fun e => e.1 = i).length

/-- The builder state stored by `RAGGraphBuilder.__init__` (lines 183–193)
and `BaseGraphBuilder.__init__` (lines 42–47).  `base_path` is the storage
location kept by `PipelineStep.__init__`; `histocartography/pipeline.py`
is not under `src/` and is modelled from the spec: it records the optional
storage location and performs no validation of the class count (which is
consumed by `BaseGraphBuilder.__init__` before delegating). -/
structure RAGBuilder where
  kernelSize : Nat
  hops : Nat
  nrClasses : Nat
  backgroundClass : Nat
  basePath : Option String
deriving Repr, DecidableEq

/-- Embeds `RAGGraphBuilder.__init__`: asserts `hops > 0 and isinstance(hops, int)`
(integrality holds by the Lean type), stores the parameters.  The class
count is stored without any check (`BaseGraphBuilder.__init__`,
lines 42–47). -/
def RAGBuilder.init (kernelSize hops nrClasses backgroundClass : Nat)
    (basePath : Option String) : Except String RAGBuilder :=
  if 1 ≤ hops then .ok ⟨kernelSize, hops, nrClasses, backgroundClass, basePath⟩
  else .error "AssertionError: Invalid hops. Must be integer >= 0"

/-- Runs `process` of an assembled region-adjacency builder. -/
def RAGBuilder.process (b : RAGBuilder) (im : Image) (feats : List (List Int))
    (ann : Option Image) : Except String DGraph :=
  ragProcess b.kernelSize b.hops b.nrClasses b.backgroundClass im feats ann

/-- Embeds `BaseGraphBuilder.process_and_save` (lines 85–121), generic over the
concrete builder's `process`.  The on-disk graph store is a map from the
output name to the list of graphs the artifact holds: asserts that a
storage location was configured; if an artifact for the name exists, loads
it, asserts it holds exactly one graph and returns that graph without
calling `process`; otherwise runs `process`, saves the result under the
name and returns it. -/
def processAndSave {α : Type} (p : α → Except String DGraph) (basePath : Option String)
    (store : String → Option (List DGraph)) (outputName : String) (inputs : α) :
    Except String (DGraph × (String → Option (List DGraph))) :=
  match basePath with
  | none =>
    .error "AssertionError: Can only save intermediate output if base_path was not None during construction"
  | some _ =>
    match store outputName with
    | some graphs =>
      match graphs with
      | [g] => .ok (g, store)
      | _ => .error "AssertionError: len(graphs) == 1"
    | none =>
      match p inputs with
      | .ok g => .ok (g, fun n => if n = outputName then some [g] else store n)
      | .error e => .error e

/-- Runs `process` together with the contents of the three input arrays after
the call.  Every in-place array write in the source targets an array
created inside the call — `mask[...] = 0` and `histogram[...] = 0` on the
fresh mask/histogram of `_set_node_labels`, `labels[...] = ...` on the
fresh label tensor, `adjacency[...] = 1` on the fresh adjacency matrix,
and `idx -= 1` / `instance_id -= 1` on fresh `pd.unique`/loop-local
values — so each embedded step hands the inputs back unchanged, and the
triple returned here is what the caller's arrays hold after `process`. -/
def ragProcessWithInputs (ks hops nrClasses bg : Nat) (im : Image)
    (feats : List (List Int)) (ann : Option Image) :
    Except String DGraph × (Image × List (List Int) × Option Image) :=
  (ragProcess ks hops nrClasses bg im feats ann, (im, feats, ann))

/-- The `KNNGraphBuilder` analogue of `ragProcessWithInputs`: the kNN path
performs no in-place array write at all. -/
def knnProcessWithInputs (k : Nat) (thresh : Option Nat) (cents : List (Int × Int))
    (feats : List (List Int)) (ann : Option (List Int)) :
    Except String DGraph × (List (Int × Int) × List (List Int) × Option (List Int)) :=
  (knnProcess k thresh cents feats ann, (cents, feats, ann))

/-- The multi-hop edge relation in the words of the specification
(§4.4, claim C4): treat the 1-hop adjacency as a binary matrix `A` and
repeatedly (hop count minus one times) compose and threshold,
`M ↦ ((M + M²) ≥ 1) - I`; an edge `(i, j)` exists exactly when `i ≠ j`
and the resulting entry is nonzero. -/
def specMultiHopMatrix (n : Nat) (A : Nat → Nat → Int) : Nat → (Nat → Nat → Int)
  | 0 => A
  | t + 1 => hopStep n (specMultiHopMatrix n A t)

/-- Edge list the specification prescribes for hop count `h` (claim C4). -/
def specMultiHopEdges (n : Nat) (A : Nat → Nat → Int) (h : Nat) : List (Nat × Nat) :=
  (List.range n).flatMap fun i =>
    ((List.range n).filter fun j =>
        decide (i ≠ j) && decide (specMultiHopMatrix n A (h - 1) i j ≠ 0)).map fun j => (i, j)

/-- Concrete region build with an annotation (two horizontal strip regions
on a 2×2 map) used to instantiate the node-count invariant. -/
def ragExampleGraph : DGraph :=
  graphOf (ragProcess 3 1 6 4 [[1, 1], [2, 2]] [[5], [6]] (some [[0, 0], [1, 1]]))

/-- Concrete proximity build with two coincident points (`k = 1`,
no threshold). -/
def knnDupGraph : DGraph :=
  graphOf (knnProcess 1 none [(0, 0), (0, 0), (5, 5)] [[1], [2], [3]] none)

/-- Concrete proximity build with three collinear distinct points
(`k = 1`, no threshold). -/
def knnDistinctGraph : DGraph :=
  graphOf (knnProcess 1 none [(0, 0), (3, 0), (10, 0)] [[1], [2], [3]] none)

/-- The empty graph, used as a concrete cached artifact. -/
def cachedArtifactGraph : DGraph := ⟨0, [], [], none, []⟩

/-- A concrete one-entry graph store. -/
def exampleStore : String → Option (List DGraph) :=
  fun n => if n = "img1" then some [cachedArtifactGraph] else none

theorem length_insertLe (le : α → α → Bool) (a : α) (l : List α) :
    (insertLe le a l).length = l.length + 1 := by
  induction l with
  | nil => rfl
  | cons b t ih =>
    simp only [insertLe]
    split <;> simp [ih]

theorem length_sortLe (le : α → α → Bool) (l : List α) :
    (sortLe le l).length = l.length := by
  induction l with
  | nil => rfl
  | cons a t ih => simp [sortLe, length_insertLe, ih]

theorem mem_insertLe {le : α → α → Bool} {a x : α} {l : List α} :
    x ∈ insertLe le a l ↔ x = a ∨ x ∈ l := by
  induction l with
  | nil => simp [insertLe]
  | cons b t ih =>
    simp only [insertLe]
    split
    · simp
    · simp only [List.mem_cons, ih]
      tauto

theorem mem_sortLe {le : α → α → Bool} {x : α} {l : List α} :
    x ∈ sortLe le l ↔ x ∈ l := by
  induction l with
  | nil => simp [sortLe]
  | cons a t ih => simp [sortLe, mem_insertLe, ih]

theorem length_filter_ne_range {n i : Nat} (h : i < n) :
    ((List.range n).filter fun j => decide (j ≠ i)).length = n - 1 := by
  induction n with
  | zero => omega
  | succ n ih =>
    rw [List.range_succ, List.filter_append, List.length_append]
    rcases Nat.lt_or_ge i n with hlt | hge
    · rw [ih hlt]
      have hkeep : ([n].filter fun j => decide (j ≠ i)) = [n] := by
        rw [List.filter_eq_self]
        intro a ha
        rw [List.mem_singleton] at ha
        subst ha
        rw [decide_eq_true_eq]
        omega
      rw [hkeep]
      simp only [List.length_singleton]
      omega
    · have hi2 : i = n := by omega
      subst hi2
      have h1 : ((List.range i).filter fun j => decide (j ≠ i)) = List.range i := by
        rw [List.filter_eq_self]
        intro a ha
        have halt := List.mem_range.mp ha
        rw [decide_eq_true_eq]
        omega
      have h2 : ([i].filter fun j => decide (j ≠ i)) = [] := by
        rw [List.filter_eq_nil_iff]
        intro a ha
        rw [List.mem_singleton] at ha
        subst ha
        simp
      rw [h1, h2]
      simp

theorem knnNeighbors_length {pts : List (Int × Int)} {k i : Nat} (hi : i < pts.length) :
    (knnNeighbors pts k i).length = min k (pts.length - 1) := by
  unfold knnNeighbors
  rw [List.length_take, length_sortLe, length_filter_ne_range hi]

theorem mem_knnNeighbors {pts : List (Int × Int)} {k i j : Nat}
    (hj : j ∈ knnNeighbors pts k i) : j < pts.length ∧ j ≠ i := by
  have h1 := List.mem_of_mem_take hj
  have h2 := mem_sortLe.mp h1
  have h3 := List.mem_filter.mp h2
  exact ⟨List.mem_range.mp h3.1, by simpa using h3.2⟩

theorem filter_fst_flatMap_range {n : Nat} {f : Nat → List (Nat × Nat)}
    (hf : ∀ a, ∀ e ∈ f a, e.1 = a) {i : Nat} (hi : i < n) :
    ((List.range n).flatMap f).filter (fun e => decide (e.1 = i)) = f i := by
  induction n with
  | zero => omega
  | succ n ih =>
    rw [List.range_succ, List.flatMap_append, List.filter_append]
    simp only [List.flatMap_cons, List.flatMap_nil, List.append_nil]
    rcases Nat.lt_or_ge i n with hlt | hge
    · have h2 : (f n).filter (fun e => decide (e.1 = i)) = [] := by
        rw [List.filter_eq_nil_iff]
        intro e he
        have := hf n e he
        simp [this]
        omega
      rw [ih hlt, h2, List.append_nil]
    · have hi2 : i = n := by omega
      subst hi2
      have h1 : ((List.range i).flatMap f).filter (fun e => decide (e.1 = i)) = [] := by
        rw [List.filter_eq_nil_iff]
        intro e he
        obtain ⟨a, ha, hea⟩ := List.mem_flatMap.mp he
        have := hf a e hea
        have := List.mem_range.mp ha
        simp
        omega
      have h2 : (f i).filter (fun e => decide (e.1 = i)) = f i := by
        rw [List.filter_eq_self]
        intro e he
        simp [hf i e he]
      rw [h1, h2, List.nil_append]

theorem outDegree_knnEdgeList {pts : List (Int × Int)} {k i : Nat}
    (hi : i < pts.length) :
    outDegree (knnEdgeList pts k none) i =
      ((knnNeighbors pts k i).filter fun j =>
        decide (sqDist (pts.getD i (0, 0)) (pts.getD j (0, 0)) ≠ 0)).length := by
  have hf : ∀ a, ∀ e ∈ ((knnNeighbors pts k a).filter fun j =>
      decide (sqDist (pts.getD a (0, 0)) (pts.getD j (0, 0)) ≠ 0)).map fun j => (a, j),
      e.1 = a := by
    intro a e he
    obtain ⟨j, _, hj⟩ := List.mem_map.mp he
    simp [← hj]
  simp only [outDegree, knnEdgeList]
  rw [filter_fst_flatMap_range hf hi, List.length_map]

theorem knnLabelsStep_ok {numNodes : Nat} {ann labs : Option (List Int)}
    (h : knnLabelsStep numNodes ann = .ok labs) :
    labs = ann ∧ ∀ a, ann = some a → a.length = numNodes := by
  cases ann with
  | none =>
    simp only [knnLabelsStep] at h
    cases h
    exact ⟨rfl, fun a ha => by cases ha⟩
  | some a =>
    simp only [knnLabelsStep] at h
    split at h
    · cases h
      exact ⟨rfl, fun a' ha' => by cases ha'; assumption⟩
    · exact Except.noConfusion h

theorem knnProcess_ok {k : Nat} {thresh : Option Nat} {cents : List (Int × Int)}
    {feats : List (List Int)} {ann : Option (List Int)} {g : DGraph}
    (h : knnProcess k thresh cents feats ann = .ok g) :
    g.numNodes = feats.length ∧ g.feats = feats ∧ g.centroids = cents ∧
    cents.length = feats.length ∧ 1 ≤ k ∧ k + 1 ≤ cents.length ∧
    g.edges = knnEdgeList cents k thresh ∧ g.labels = ann ∧
    (∀ a, ann = some a → a.length = feats.length) ∧
    (∀ e ∈ g.edges, e.1 < feats.length ∧ e.2 < feats.length) := by
  simp only [knnProcess] at h
  split at h
  case isTrue hc =>
    split at h
    case h_1 => exact Except.noConfusion h
    case h_2 labs hlabs =>
      split at h
      case isTrue hk =>
        split at h
        case isTrue hall =>
          obtain ⟨hl1, hl2⟩ := knnLabelsStep_ok hlabs
          cases h
          refine ⟨rfl, rfl, rfl, hc, hk.1, hk.2, rfl, hl1, hl2, ?_⟩
          intro e he
          have hb := List.all_eq_true.mp hall e he
          rw [Bool.and_eq_true, decide_eq_true_eq, decide_eq_true_eq] at hb
          exact hb
        case isFalse => exact Except.noConfusion h
      case isFalse => exact Except.noConfusion h
  case isFalse => exact Except.noConfusion h

/-- C5, counterexample: the proximity build on the three points
`[(0,0), (0,0), (5,5)]` with `k = 1` and no threshold succeeds, `N − 1 ≥ k`
holds, yet node 0's out-degree is 0, not `k = 1`: its sole nearest
neighbour is the coincident point at distance 0, whose edge is dropped by
`np.nonzero`. -/
theorem c5_duplicate_points_counterexample :
    knnProcess 1 none [(0, 0), (0, 0), (5, 5)] [[1], [2], [3]] none = .ok knnDupGraph ∧
    ¬(([(0, 0), (0, 0), (5, 5)] : List (Int × Int)).length - 1 < 1) ∧
    outDegree knnDupGraph.edges 0 = 0 :=
  ⟨rfl, by decide, by decide⟩

/-- C5 (amended): for the proximity builder with parameter `k` and no
thresholding, in every successful build every node's out-degree is at most
`k`; it equals `k` whenever every one of the node's `k` selected nearest
neighbours lies at strictly positive distance (coincident points are
dropped by the `np.nonzero` extraction and give a smaller out-degree). -/
theorem c5_knn_degree_bound (k : Nat) (cents : List (Int × Int))
    (feats : List (List Int)) (ann : Option (List Int)) (g : DGraph) (i : Nat)
    (hok : knnProcess k none cents feats ann = .ok g) (hi : i < cents.length) :
    outDegree g.edges i ≤ k ∧
    ((∀ j ∈ knnNeighbors cents k i,
        sqDist (cents.getD i (0, 0)) (cents.getD j (0, 0)) ≠ 0) →
      outDegree g.edges i = k) := by
  obtain ⟨-, -, -, -, hk1, hkn, hedges, -, -, -⟩ := knnProcess_ok hok
  rw [hedges, outDegree_knnEdgeList hi]
  constructor
  · calc ((knnNeighbors cents k i).filter fun j =>
          decide (sqDist (cents.getD i (0, 0)) (cents.getD j (0, 0)) ≠ 0)).length
        ≤ (knnNeighbors cents k i).length := List.length_filter_le _ _
      _ = min k (cents.length - 1) := knnNeighbors_length hi
      _ ≤ k := Nat.min_le_left _ _
  · intro hpos
    have hall : ∀ j ∈ knnNeighbors cents k i,
        decide (sqDist (cents.getD i (0, 0)) (cents.getD j (0, 0)) ≠ 0) = true := by
      intro j hj
      rw [decide_eq_true_eq]
      exact hpos j hj
    rw [List.filter_eq_self.mpr hall, knnNeighbors_length hi]
    omega

/-- C5, witness: on three collinear distinct points with `k = 1`, node 0's
out-degree is bounded by 1 and, all its neighbours being at positive
distance, equals 1. -/
theorem c5_knn_degree_bound_witness :
    outDegree knnDistinctGraph.edges 0 ≤ 1 ∧ outDegree knnDistinctGraph.edges 0 = 1 := by
  have h := c5_knn_degree_bound 1 [(0, 0), (3, 0), (10, 0)] [[1], [2], [3]] none
    knnDistinctGraph 0 rfl (by decide)
  exact ⟨h.1, h.2 (by decide)⟩

/-- C9: in the proximity builder with no threshold, two distinct input
points with identical coordinates get no edge between them, in either
direction: the kNN matrix is built in distance mode, a coincident
neighbour is stored with value 0, and `np.nonzero` on the sparse matrix
drops zero-valued stored entries. -/
theorem c9_zero_distance_dropped (k : Nat) (cents : List (Int × Int))
    (feats : List (List Int)) (ann : Option (List Int)) (g : DGraph) (i j : Nat)
    (hok : knnProcess k none cents feats ann = .ok g)
    (_hi : i < cents.length) (_hj : j < cents.length) (_hij : i ≠ j)
    (hcoord : cents.getD i (0, 0) = cents.getD j (0, 0)) :
    (i, j) ∉ g.edges ∧ (j, i) ∉ g.edges := by
  obtain ⟨-, -, -, -, -, -, hedges, -, -, -⟩ := knnProcess_ok hok
  rw [hedges]
  have hrefl : ∀ p : Int × Int, sqDist p p = 0 := by
    intro p
    rw [sqDist]
    ring
  constructor <;> intro hmem
  · simp only [knnEdgeList] at hmem
    obtain ⟨a, -, hmem2⟩ := List.mem_flatMap.mp hmem
    obtain ⟨j', hj', hpair⟩ := List.mem_map.mp hmem2
    have ha : a = i := congrArg Prod.fst hpair
    have hb : j' = j := congrArg Prod.snd hpair
    have hd := (List.mem_filter.mp hj').2
    rw [decide_eq_true_eq, ha, hb, hcoord] at hd
    exact hd (hrefl _)
  · simp only [knnEdgeList] at hmem
    obtain ⟨a, -, hmem2⟩ := List.mem_flatMap.mp hmem
    obtain ⟨j', hj', hpair⟩ := List.mem_map.mp hmem2
    have ha : a = j := congrArg Prod.fst hpair
    have hb : j' = i := congrArg Prod.snd hpair
    have hd := (List.mem_filter.mp hj').2
    rw [decide_eq_true_eq, ha, hb, hcoord] at hd
    exact hd (hrefl _)

/-- C9, witness: in the concrete build on `[(0,0), (0,0), (5,5)]` with
`k = 1`, no edge joins the coincident points 0 and 1 in either
direction. -/
theorem c9_zero_distance_dropped_witness :
    (0, 1) ∉ knnDupGraph.edges ∧ (1, 0) ∉ knnDupGraph.edges :=
  c9_zero_distance_dropped 1 [(0, 0), (0, 0), (5, 5)] [[1], [2], [3]] none
    knnDupGraph 0 1 rfl (by decide) (by decide) (by decide) (by decide)

theorem ragLabelsStep_ok {nrClasses bg numNodes : Nat} {im : Image} {ann : Option Image}
    {labs : Option (List Int)}
    (h : ragLabelsStep nrClasses bg numNodes im ann = .ok labs) :
    (ann.isSome → ∃ ls, labs = some ls ∧ ls.length = numNodes) ∧
    (ann = none → labs = none) := by
  cases ann with
  | none =>
    simp only [ragLabelsStep] at h
    cases h
    exact ⟨by simp, fun _ => rfl⟩
  | some a =>
    simp only [ragLabelsStep] at h
    split at h
    case h_1 => exact Except.noConfusion h
    case h_2 ls hls =>
      split at h
      case isTrue hlen =>
        cases h
        refine ⟨fun _ => ⟨ls.map Int.ofNat, rfl, ?_⟩, by simp⟩
        rw [List.length_map]
        exact hlen
      case isFalse => exact Except.noConfusion h

theorem ragProcess_ok {ks hops nrClasses bg : Nat} {im : Image}
    {feats : List (List Int)} {ann : Option Image} {g : DGraph}
    (h : ragProcess ks hops nrClasses bg im feats ann = .ok g) :
    g.numNodes = feats.length ∧ g.feats = feats ∧ g.centroids = ragCentroids im ∧
    g.centroids.length = g.numNodes ∧
    ragLabelsStep nrClasses bg feats.length im ann = .ok g.labels ∧
    ragBuildTopology im ks = .ok g.edges ∧
    (∀ e ∈ g.edges, e.1 < g.numNodes ∧ e.2 < g.numNodes) := by
  simp only [ragProcess] at h
  split at h
  case isTrue hc =>
    split at h
    case h_1 => exact Except.noConfusion h
    case h_2 labs hlabs =>
      split at h
      case h_1 => exact Except.noConfusion h
      case h_2 edges hedges =>
        split at h
        case isTrue hall =>
          cases h
          refine ⟨rfl, rfl, rfl, hc, hlabs, hedges, ?_⟩
          intro e he
          have hb := List.all_eq_true.mp hall e he
          rw [Bool.and_eq_true, decide_eq_true_eq, decide_eq_true_eq] at hb
          exact hb
        case isFalse => exact Except.noConfusion h
  case isFalse => exact Except.noConfusion h

/-- C2: for every build with an annotation supplied (either builder), in a
successful build the feature matrix has N rows, the centroid array N
entries, the label array is present with N entries, and every emitted edge
endpoint is an index in `[0, N-1]`, where N is the node count. -/
theorem c2_node_count_invariant :
    (∀ ks hops nrClasses bg im feats a g,
      ragProcess ks hops nrClasses bg im feats (some a) = .ok g →
      g.feats.length = g.numNodes ∧ g.centroids.length = g.numNodes ∧
      (∃ ls, g.labels = some ls ∧ ls.length = g.numNodes) ∧
      ∀ e ∈ g.edges, e.1 < g.numNodes ∧ e.2 < g.numNodes) ∧
    (∀ k thresh cents feats a g,
      knnProcess k thresh cents feats (some a) = .ok g →
      g.feats.length = g.numNodes ∧ g.centroids.length = g.numNodes ∧
      (∃ ls, g.labels = some ls ∧ ls.length = g.numNodes) ∧
      ∀ e ∈ g.edges, e.1 < g.numNodes ∧ e.2 < g.numNodes) := by
  constructor
  · intro ks hops nrClasses bg im feats a g h
    obtain ⟨hn, hf, -, hclen, hlabs, -, hbound⟩ := ragProcess_ok h
    refine ⟨by rw [hf, hn], hclen, ?_, hbound⟩
    obtain ⟨ls, hls, hlen⟩ := (ragLabelsStep_ok hlabs).1 (by simp)
    exact ⟨ls, hls, by rw [hn]; exact hlen⟩
  · intro k thresh cents feats a g h
    obtain ⟨hn, hf, hcents, hclen, -, -, -, hlab, hlen, hbound⟩ := knnProcess_ok h
    refine ⟨by rw [hf, hn], by rw [hcents, hn]; exact hclen,
      ⟨a, by rw [hlab], by rw [hn]; exact hlen a rfl⟩, ?_⟩
    intro e he
    rw [hn]
    exact hbound e he

/-- C2, witness: the concrete annotated region build `ragExampleGraph` has
matching attribute lengths and a present label array of length N. -/
theorem c2_node_count_invariant_witness :
    ragProcess 3 1 6 4 [[1, 1], [2, 2]] [[5], [6]] (some [[0, 0], [1, 1]]) = .ok ragExampleGraph ∧
    ragExampleGraph.feats.length = ragExampleGraph.numNodes ∧
    ragExampleGraph.centroids.length = ragExampleGraph.numNodes ∧
    (∃ ls, ragExampleGraph.labels = some ls ∧ ls.length = ragExampleGraph.numNodes) := by
  have h := c2_node_count_invariant.1 3 1 6 4 [[1, 1], [2, 2]] [[5], [6]] [[0, 0], [1, 1]]
    ragExampleGraph rfl
  exact ⟨rfl, h.1, h.2.1, h.2.2.1⟩

theorem listMax_mem {l : List Nat} (h : l ≠ []) : listMax l ∈ l := by
  induction l with
  | nil => exact absurd rfl h
  | cons a t ih =>
    cases t with
    | nil => simp [listMax]
    | cons b t' =>
      have hmem := ih (by simp)
      rw [listMax, List.foldr_cons]
      rw [listMax] at hmem
      rcases Nat.le_total a (List.foldr Nat.max 0 (b :: t')) with hle | hle
      · show a ⊔ List.foldr Nat.max 0 (b :: t') ∈ a :: b :: t'
        rw [Nat.max_eq_right hle]
        exact List.mem_cons_of_mem _ hmem
      · show a ⊔ List.foldr Nat.max 0 (b :: t') ∈ a :: b :: t'
        rw [Nat.max_eq_left hle]
        exact List.mem_cons_self _ _

theorem le_listMax {l : List Nat} {x : Nat} (h : x ∈ l) : x ≤ listMax l := by
  induction l with
  | nil => cases h
  | cons a t ih =>
    rw [listMax, List.foldr_cons]
    rcases List.mem_cons.mp h with rfl | hmem
    · exact Nat.le_max_left _ _
    · have hle := ih hmem
      rw [listMax] at hle
      exact le_trans hle (Nat.le_max_right _ _)

theorem npArgmax_lt_length {l : List Nat} (h : l ≠ []) : npArgmax l < l.length :=
  List.findIdx_lt_length_of_exists ⟨listMax l, listMax_mem h, by simp⟩

theorem getD_npArgmax {l : List Nat} (h : l ≠ []) : l.getD (npArgmax l) 0 = listMax l := by
  have hlt := npArgmax_lt_length h
  have hp := @List.findIdx_getElem _ (fun x => x == listMax l) l hlt
  rw [List.getD_eq_getElem l 0 hlt]
  exact beq_iff_eq.mp hp

theorem getD_lt_of_lt_npArgmax {l : List Nat} {j : Nat} (h : l ≠ [])
    (hj : j < npArgmax l) : l.getD j 0 < l.getD (npArgmax l) 0 := by
  have hlt := npArgmax_lt_length h
  have hjlt : j < l.length := lt_trans hj hlt
  have hne := @List.not_of_lt_findIdx _ (fun x => x == listMax l) l _ hj
  rw [List.getD_eq_getElem l 0 hjlt, List.getD_eq_getElem l 0 hlt]
  have hle : l[j] ≤ listMax l := le_listMax (List.getElem_mem hjlt)
  have hmax : l[npArgmax l] = listMax l :=
    beq_iff_eq.mp (@List.findIdx_getElem _ (fun x => x == listMax l) l hlt)
  rw [hmax]
  refine lt_of_le_of_ne hle ?_
  intro heq
  rw [beq_eq_false_iff_ne] at hne
  exact hne heq

theorem maskedSum_ne_zero_exists {hist : List Nat} {bg : Nat}
    (h : maskedSum hist bg ≠ 0) :
    ∃ i, i < hist.length ∧ i ≠ bg ∧ 0 < hist.getD i 0 := by
  by_contra hall
  push_neg at hall
  apply h
  rw [maskedSum, List.sum_eq_zero_iff]
  intro x hx
  obtain ⟨p, hp, hpx⟩ := List.mem_map.mp hx
  have hpf := List.mem_filter.mp hp
  obtain ⟨hi, hval⟩ := List.mem_enum hpf.1
  have hne := hpf.2
  rw [decide_eq_true_eq] at hne
  have := hall p.1 hi hne
  rw [List.getD_eq_getElem hist 0 hi] at this
  omega

/-- C6: for every region's histogram, the label aggregation of
`_set_node_labels` assigns the background class when the histogram has
zero total count outside the background bin; otherwise the background bin
is zeroed and the assignment is the `np.argmax` over the remaining bins —
a non-background index attaining the maximum, with ties broken by the
lowest class index. -/
theorem c6_label_background_rule (pixels : List Nat) (nrClasses bg : Nat)
    (hbg : bg < nrClasses) :
    (maskedSum (fastHistogram pixels nrClasses) bg = 0 →
      regionAssignment (fastHistogram pixels nrClasses) bg = bg) ∧
    (maskedSum (fastHistogram pixels nrClasses) bg ≠ 0 →
      regionAssignment (fastHistogram pixels nrClasses) bg ≠ bg ∧
      IsLeastArgmax ((fastHistogram pixels nrClasses).set bg 0)
        (regionAssignment (fastHistogram pixels nrClasses) bg)) := by
  have hlen : (fastHistogram pixels nrClasses).length = nrClasses := by
    rw [fastHistogram, List.length_map, List.length_range]
  constructor
  · intro h0
    rw [regionAssignment, if_pos h0]
  · intro hne
    rw [regionAssignment, if_neg hne]
    have hlen' : ((fastHistogram pixels nrClasses).set bg 0).length = nrClasses := by
      rw [List.length_set, hlen]
    have hnil : (fastHistogram pixels nrClasses).set bg 0 ≠ [] := by
      intro hn
      rw [hn] at hlen'
      simp at hlen'
      omega
    obtain ⟨i, hi, hibg, hipos⟩ := maskedSum_ne_zero_exists hne
    have hibound : i < ((fastHistogram pixels nrClasses).set bg 0).length := by
      rw [List.length_set]
      exact hi
    have hkeep : ((fastHistogram pixels nrClasses).set bg 0).getD i 0 =
        (fastHistogram pixels nrClasses).getD i 0 := by
      rw [List.getD_eq_getElem _ 0 hibound, List.getD_eq_getElem _ 0 hi]
      exact List.getElem_set_ne (Ne.symm hibg) hibound
    have hmaxpos : 0 < listMax ((fastHistogram pixels nrClasses).set bg 0) := by
      calc 0 < (fastHistogram pixels nrClasses).getD i 0 := hipos
        _ = ((fastHistogram pixels nrClasses).set bg 0).getD i 0 := hkeep.symm
        _ ≤ listMax ((fastHistogram pixels nrClasses).set bg 0) := by
            rw [List.getD_eq_getElem _ 0 hibound]
            exact le_listMax (List.getElem_mem hibound)
    have hbgzero : ((fastHistogram pixels nrClasses).set bg 0).getD bg 0 = 0 := by
      have hbglt : bg < ((fastHistogram pixels nrClasses).set bg 0).length := by
        rw [hlen']
        exact hbg
      rw [List.getD_eq_getElem _ 0 hbglt]
      exact List.getElem_set_self hbglt
    refine ⟨?_, ?_, ?_, ?_⟩
    · intro heqbg
      have := getD_npArgmax hnil
      rw [heqbg, hbgzero] at this
      omega
    · exact npArgmax_lt_length hnil
    · exact getD_npArgmax hnil
    · intro j hj
      exact getD_lt_of_lt_npArgmax hnil hj

/-- C6, witness: a region annotated entirely with the background class 0
is assigned label 0 (spec scenario 3). -/
theorem c6_label_background_rule_witness :
    (0 : Nat) < 6 ∧ regionAssignment (fastHistogram [0, 0, 0] 6) 0 = 0 :=
  ⟨by decide, (c6_label_background_rule [0, 0, 0] 6 0 (by decide)).1 (by decide)⟩

/-- C1, evaluation at the failing input: on the instance map `[[0, 1]]`
(one region bordered by background) with kernel size 3 and one hop, the
region build succeeds and returns the self-loop edge `(0, 0)`: the
background id 0 under region 1's boundary ring is decremented to `-1`,
which numpy wraps to the last column of the adjacency matrix — here
column 0, the region's own column.  This contradicts the claimed
no-self-loop invariant. -/
theorem c1_background_selfloop_eval :
    edgesOf (ragProcess 3 1 6 4 [[0, 1]] [[7]] none) = [(0, 0)] := rfl

/-- C3, counterexample: instantiating the region builder with
`nr_classes = 300` succeeds — `__init__` stores the class count without
any check, so no error is raised at construction time. -/
theorem c3_construction_succeeds :
    RAGBuilder.init 5 1 300 4 none = .ok ⟨5, 1, 300, 4, none⟩ := rfl

/-- C3 (amended): instantiating a region-based builder with a class count
of 256 or more succeeds; the check `nr_classes < 256` is an assert inside
`_set_node_labels`, so the `ConfigurationError` is raised when node labels
are first computed — during a build with an annotation supplied — before
any region is processed (the failure is uniform in the region map and
annotation). -/
theorem c3_label_time_check (ks hops nrClasses bg : Nat) (bp : Option String)
    (hh : 1 ≤ hops) (hc : 256 ≤ nrClasses) :
    RAGBuilder.init ks hops nrClasses bg bp = .ok ⟨ks, hops, nrClasses, bg, bp⟩ ∧
    ∀ im ann, ragSetNodeLabels nrClasses bg im ann =
      .error "AssertionError: Cannot handle that many classes with 8 byte representation" := by
  constructor
  · rw [RAGBuilder.init, if_pos hh]
  · intro im ann
    rw [ragSetNodeLabels, if_neg (by omega)]

/-- C3, witness: with `nr_classes = 300` construction succeeds and the
label computation fails with the assertion, for a concrete map and
annotation. -/
theorem c3_label_time_check_witness :
    RAGBuilder.init 5 1 300 4 none = .ok ⟨5, 1, 300, 4, none⟩ ∧
    ragSetNodeLabels 300 4 [[1]] [[2]] =
      .error "AssertionError: Cannot handle that many classes with 8 byte representation" := by
  have h := c3_label_time_check 5 1 300 4 none (by decide) (by decide)
  exact ⟨h.1, h.2 [[1]] [[2]]⟩

/-- C4, evaluation at the failing input: on the three-region chain
`[[1, 2, 3]]` with kernel size 3 and hop count 2, the build returns only
the 1-hop edges — `(0, 2)` is absent — although the thresholded power-sum
matrix of the claim has a nonzero entry at `(0, 2)`: the loop
`graph = two_hop_neighborhood(graph)` rebinds a local variable and the
expanded graph is discarded. -/
theorem c4_multihop_discarded_eval :
    edgesOf (ragProcess 3 2 6 4 [[1, 2, 3]] [[1], [2], [3]] none) =
      [(0, 1), (1, 0), (1, 2), (2, 1)] ∧
    (0, 2) ∉ edgesOf (ragProcess 3 2 6 4 [[1, 2, 3]] [[1], [2], [3]] none) ∧
    (0, 2) ∈ specMultiHopEdges 3 (denseAdj [(0, 1), (1, 0), (1, 2), (2, 1)]) 2 :=
  ⟨rfl, by decide, by decide⟩

/-- C7: the cache contract of `process_and_save`: (1) with no configured
storage location it fails with the precondition assertion before any work,
for every store, name and input; (2) if an artifact holding exactly one
graph exists under the name, that graph is returned and the store is left
unchanged, for *every* process function and input — nothing is recomputed
and no consistency check against the fresh inputs happens; (3) on a miss,
`process` runs and its result is persisted under the name before being
returned. -/
theorem c7_cache_contract :
    (∀ (α : Type) (p : α → Except String DGraph) store name inputs,
      processAndSave p none store name inputs =
        .error "AssertionError: Can only save intermediate output if base_path was not None during construction") ∧
    (∀ (α : Type) (p : α → Except String DGraph) bp store name inputs g,
      store name = some [g] →
      processAndSave p (some bp) store name inputs = .ok (g, store)) ∧
    (∀ (α : Type) (p : α → Except String DGraph) bp store name inputs g,
      store name = none → p inputs = .ok g →
      processAndSave p (some bp) store name inputs =
        .ok (g, fun n => if n = name then some [g] else store n)) := by
  refine ⟨fun α p store name inputs => rfl, ?_, ?_⟩
  · intro α p bp store name inputs g hstore
    rw [processAndSave, hstore]
  · intro α p bp store name inputs g hstore hp
    rw [processAndSave, hstore, hp]

/-- C7, witness: concretely, with no storage location the call fails; and
with a one-graph artifact under the name, the cached graph is returned
unchanged even though the supplied process function always fails — no
recomputation happened. -/
theorem c7_cache_contract_witness :
    processAndSave (fun _ : Unit => .error "no") none exampleStore "img1" () =
      .error "AssertionError: Can only save intermediate output if base_path was not None during construction" ∧
    processAndSave (fun _ : Unit => .error "no") (some "base") exampleStore "img1" () =
      .ok (cachedArtifactGraph, exampleStore) :=
  ⟨c7_cache_contract.1 Unit (fun _ => .error "no") exampleStore "img1" (),
   c7_cache_contract.2.1 Unit (fun _ => .error "no") "base" exampleStore "img1" ()
     cachedArtifactGraph rfl⟩

theorem mem_sortedPositiveIds_pos {im : Image} {r : Nat}
    (h : r ∈ sortedPositiveIds im) : 1 ≤ r := by
  simp only [sortedPositiveIds] at h
  have h2 := (List.mem_filter.mp h).2
  rw [Bool.and_eq_true, decide_eq_true_eq] at h2
  omega

theorem mem_ragAssignList {im : Image} {ks r v : Nat}
    (hr : r ∈ sortedPositiveIds im) (hv : v ∈ boundaryIds im ks r) :
    (npWrap (sortedPositiveIds im).length ((r : Int) - 1),
     npWrap (sortedPositiveIds im).length ((v : Int) - 1)) ∈ ragAssignList im ks := by
  have hunf : ragAssignList im ks =
      (sortedPositiveIds im).flatMap (fun r' =>
        (boundaryIds im ks r').map fun (v' : Nat) =>
          (npWrap (sortedPositiveIds im).length ((r' : Int) - 1),
           npWrap (sortedPositiveIds im).length ((v' : Int) - 1))) := rfl
  rw [hunf, List.mem_flatMap]
  exact ⟨r, hr, List.mem_map_of_mem _ hv⟩

theorem mem_matrixNonzero {n : Nat} {entries : List (Nat × Nat)} {a b : Nat} :
    (a, b) ∈ matrixNonzero n entries ↔ a < n ∧ b < n ∧ (a, b) ∈ entries := by
  simp only [matrixNonzero, List.mem_flatMap, List.mem_map, List.mem_filter,
    List.mem_range, decide_eq_true_eq]
  constructor
  · rintro ⟨a', ha', b', ⟨hb', hmem⟩, hpair⟩
    have h1 : a' = a := congrArg Prod.fst hpair
    have h2 : b' = b := congrArg Prod.snd hpair
    subst h1; subst h2
    exact ⟨ha', hb', hmem⟩
  · rintro ⟨ha, hb, hmem⟩
    exact ⟨a, ha, b, ⟨hb, hmem⟩, rfl⟩

/-- C8: in the region-adjacency topology, every region `r` whose dilated
boundary ring overlaps background pixels (id 0 among its boundary ids)
produces the adjacency entry `adjacency[r - 1, -1]` — numpy wraps the
decremented background id to the last column — which materialises as a
directed edge from node `r - 1` to the last node, index `N - 1`. -/
theorem c8_background_wraparound_edge (im : Image) (ks r : Nat)
    (edges : List (Nat × Nat)) (hok : ragBuildTopology im ks = .ok edges)
    (hr : r ∈ sortedPositiveIds im) (h0 : 0 ∈ boundaryIds im ks r) :
    (r - 1, (sortedPositiveIds im).length - 1) ∈ edges := by
  have hr1 := mem_sortedPositiveIds_pos hr
  have hn : 1 ≤ (sortedPositiveIds im).length :=
    List.length_pos.mpr (List.ne_nil_of_mem hr)
  simp only [ragBuildTopology] at hok
  split at hok
  case isTrue hguard =>
    cases hok
    rw [Bool.and_eq_true] at hguard
    have hrow := List.all_eq_true.mp hguard.1 r hr
    rw [npIdxOk, Bool.and_eq_true, decide_eq_true_eq, decide_eq_true_eq] at hrow
    have hrlt : r - 1 < (sortedPositiveIds im).length := by omega
    rw [mem_matrixNonzero]
    refine ⟨hrlt, by omega, ?_⟩
    have hmem := mem_ragAssignList hr h0
    have hw1 : npWrap (sortedPositiveIds im).length ((r : Int) - 1) = r - 1 := by
      rw [npWrap]
      split
      · omega
      · omega
    have hw2 : npWrap (sortedPositiveIds im).length (((0 : Nat) : Int) - 1) =
        (sortedPositiveIds im).length - 1 := by
      rw [npWrap]
      split
      · omega
      · omega
    rw [hw1, hw2] at hmem
    exact hmem
  case isFalse => exact Except.noConfusion hok

/-- C8, witness: on `[[0, 1]]` with kernel size 3, region 1's boundary is
the background pixel, and the edge `(0, N - 1) = (0, 0)` is emitted. -/
theorem c8_background_wraparound_edge_witness :
    ragBuildTopology [[0, 1]] 3 = .ok [(0, 0)] ∧
    (1 - 1, (sortedPositiveIds [[0, 1]]).length - 1) ∈ [((0 : Nat), (0 : Nat))] :=
  ⟨rfl, c8_background_wraparound_edge [[0, 1]] 3 1 [(0, 0)] rfl (by decide) (by decide)⟩

/-- C10: the `process` call leaves its input arrays unmodified — the structure
(region map or point coordinates), the feature matrix and the annotation
hold the same values after the call as before it, for both builders. -/
theorem c10_inputs_unmodified :
    (∀ ks hops nrClasses bg im feats ann,
      (ragProcessWithInputs ks hops nrClasses bg im feats ann).2 = (im, feats, ann)) ∧
    (∀ k thresh cents feats ann,
      (knnProcessWithInputs k thresh cents feats ann).2 = (cents, feats, ann)) :=
  ⟨fun _ _ _ _ _ _ _ => rfl, fun _ _ _ _ _ => rfl⟩
